import Mathlib

/-!
Verification development for the googleSync repository (push2Google.py,
pullFromGoogle.py, sync.py): a shallow embedding of the manifest store,
the local and remote tree scanners, the push/pull reconcilers and their
action executors, together with theorems checking the specified
properties against this embedding.

Conventions of the embedding:
* The persisted checksum manifest (`.checksums.json`) is an association
  list from relative path to an `Entry`; Python `dict` operations
  (`d.get`, `d[k] = v`, `del d[k]`) become `dget`, `dset`, `ddel`, which
  keep insertion order like a Python dict.
* File contents and timestamps are opaque strings: `calculate_checksum`
  and `st_mtime` are inputs of the model (a `LocalFile` carries the
  checksum and mtime the run would compute for it), since hashing and
  the filesystem clock are outside the reconciliation logic.
* Network transfers are oracles: an upload either returns the Drive id
  of the resulting object or fails (raises), a download either returns
  the downloaded content's checksum and resulting local mtime or fails.
-/

namespace GoogleSync

/-- One value of the persisted checksum manifest.  push2Google.py writes
`checksum`, `modified` and (outside `--init`) `drive_id`;
pullFromGoogle.py additionally writes `drive_modified`.  Readers access
the two Drive fields with `.get`, so they are `Option`s here. -/
structure Entry where
  checksum : String
  modified : String
  drive_id : Option String
  drive_modified : Option String
deriving DecidableEq, Repr

/-- The checksum manifest: relative path ↦ entry, in insertion order. -/
abbrev Manifest := List (String × Entry)

/-- A regular file of the local vault, with the content hash
(`calculate_checksum`) and mtime the scan would compute for it. -/
structure LocalFile where
  path : String
  checksum : String
  modified : String
deriving DecidableEq, Repr

/-- `d.get(k)` / `k in d` on a Python dict modelled as an assoc list. -/
def dget {α : Type} : List (String × α) → String → Option α
  | [], _ => none
  | (k, v) :: rest, q => if k = q then some v else dget rest q

/-- `d[k] = v` on a Python dict: replace in place, or append new key. -/
def dset {α : Type} : List (String × α) → String → α → List (String × α)
  | [], q, v => [(q, v)]
  | (k, w) :: rest, q, v => if k = q then (q, v) :: rest else (k, w) :: dset rest q v

/-- `del d[k]` on a Python dict. -/
def ddel {α : Type} : List (String × α) → String → List (String × α)
  | [], _ => []
  | (k, w) :: rest, q => if k = q then rest else (k, w) :: ddel rest q

@[simp] theorem dget_nil {α : Type} (q : String) : dget ([] : List (String × α)) q = none := rfl

@[simp] theorem dget_cons {α : Type} (k q : String) (v : α) (rest : List (String × α)) :
    dget ((k, v) :: rest) q = if k = q then some v else dget rest q := rfl

theorem dget_dset_self {α : Type} (m : List (String × α)) (q : String) (v : α) :
    dget (dset m q v) q = some v := by
  induction m with
  | nil => simp [dset]
  | cons kv rest ih =>
    obtain ⟨k, w⟩ := kv
    by_cases h : k = q <;> simp [dset, h, ih]

theorem dget_dset_ne {α : Type} (m : List (String × α)) (q p : String) (v : α)
    (h : p ≠ q) : dget (dset m q v) p = dget m p := by
  induction m with
  | nil => simp [dset, dget, Ne.symm h]
  | cons kv rest ih =>
    obtain ⟨k, w⟩ := kv
    by_cases hk : k = q
    · subst hk
      simp [dset, dget, Ne.symm h]
    · simp [dset, dget, hk, ih]

theorem dget_ddel_ne {α : Type} (m : List (String × α)) (q p : String)
    (h : p ≠ q) : dget (ddel m q) p = dget m p := by
  induction m with
  | nil => simp [ddel]
  | cons kv rest ih =>
    obtain ⟨k, w⟩ := kv
    by_cases hk : k = q
    · subst hk
      simp [ddel, dget, Ne.symm h]
    · simp [ddel, dget, hk, ih]

/-- A `dget` hit names a member of the list. -/
theorem dget_mem {α : Type} {m : List (String × α)} {q : String} {v : α}
    (h : dget m q = some v) : (q, v) ∈ m := by
  induction m with
  | nil => simp [dget] at h
  | cons kv rest ih =>
    obtain ⟨k, w⟩ := kv
    by_cases hk : k = q
    · subst hk
      simp [dget] at h
      simp [h]
    · simp [dget, hk] at h
      exact List.mem_cons_of_mem _ (ih h)

/-- A key that is a member of the list is found by `dget`. -/
theorem dget_isSome_of_mem {α : Type} {m : List (String × α)} {q : String} {v : α}
    (h : (q, v) ∈ m) : (dget m q).isSome = true := by
  induction m with
  | nil => simp at h
  | cons kv rest ih =>
    obtain ⟨k, w⟩ := kv
    rcases List.mem_cons.mp h with h1 | h2
    · cases h1
      simp [dget]
    · by_cases hk : k = q <;> simp [dget, hk, ih h2]

/-! ### String helpers

`String.endsWith` and `String.toLower` from core do not reduce inside the
kernel, so the embedding restates them over the underlying character
lists; they agree with Python's `str.endswith` / `str.lower` on the
ASCII names this program handles. -/

/-- Python `str.endswith`. -/
def hasSuffix (s suffix : String) : Bool := suffix.data.isSuffixOf s.data

/-- Python `str.lower`. -/
def lowerStr (s : String) : String := String.mk (s.data.map Char.toLower)

/-! ### Local tree scanner and push reconciler (push2Google.py) -/

/-- `get_all_notes` (push2Google.py line 60-62):
`VAULT_PATH.glob('**/*.md')` — the files of the vault whose name ends in
`.md`, i.e. markdown files only. -/
def get_all_notes (vault : List LocalFile) : List LocalFile :=
  vault.filter (fun f => hasSuffix f.path ".md")

/-- The `new_checksums` dict built by `sync_to_google_drive`
(lines 179-188): one entry per scanned note, with the fresh checksum and
mtime, the `drive_id` carried over from the old manifest, and — notably —
no `drive_modified` key at all. -/
def newChecksums (old : Manifest) (notes : List LocalFile) : Manifest :=
  notes.map (fun f =>
    (f.path,
      { checksum := f.checksum, modified := f.modified,
        drive_id := (dget old f.path).bind (fun e => e.drive_id),
        drive_modified := none }))

/-- `new_files` (line 190-191): scanned paths absent from the old manifest. -/
def pushNew (old : Manifest) (notes : List LocalFile) : List String :=
  (notes.filter (fun f => (dget old f.path).isNone)).map (fun f => f.path)

/-- `modified_files` (line 192-193): tracked paths whose checksum changed. -/
def pushModified (old : Manifest) (notes : List LocalFile) : List String :=
  (notes.filter (fun f =>
    match dget old f.path with
    | some e => e.checksum != f.checksum
    | none => false)).map (fun f => f.path)

/-- `deleted_files` (lines 195-198): old manifest paths absent from
`new_checksums`, whose keys are exactly the scanned note paths. -/
def pushDeleted (old : Manifest) (notes : List LocalFile) : List String :=
  (old.filter (fun kv => ! notes.any (fun f => f.path == kv.1))).map (fun kv => kv.1)

/-- `new_checksums[p]['drive_id'] = drive_id` (line 249). -/
def setDriveId (m : Manifest) (p did : String) : Manifest :=
  m.map (fun kv => if kv.1 = p then (kv.1, { kv.2 with drive_id := some did }) else kv)

/-- A remote-store action issued by a push run. -/
inductive PushAction where
  | upload (p : String)
  | deleteRemote (p : String)
deriving DecidableEq, Repr

/-- Result of a push run: the manifest left on disk, the actions issued
against the remote store, and whether the run died on an uncaught
exception. -/
structure PushOutcome where
  saved : Manifest
  actions : List PushAction
  aborted : Bool
deriving DecidableEq, Repr

/-- The upload loop (lines 227-252).  `up p` is the transfer oracle for
path `p`: `some did` means the folder lookups and the upload succeeded
and the remote object id is `did`; `none` means one of those network
calls raised.  The loop body is not wrapped in try/except, so a raise
terminates the loop (and the whole run) immediately; on success the
entry's `drive_id` is updated in `new_checksums`. -/
def uploadLoop (up : String → Option String) :
    List String → Manifest → List PushAction → Manifest × List PushAction × Bool
  | [], man, acts => (man, acts, false)
  | p :: ps, man, acts =>
    match up p with
    | some did => uploadLoop up ps (setDriveId man p did) (acts ++ [PushAction.upload p])
    | none => (man, acts ++ [PushAction.upload p], true)

/-- `sync_to_google_drive` (push2Google.py lines 162-266), starting after
the service is obtained.  On "No changes detected" it returns before any
action and before `save_checksums`, leaving the old manifest on disk.
An upload failure propagates (nothing more runs, `save_checksums` never
executes).  The delete loop (lines 254-262) only issues a remote delete
when the old entry has a `drive_id`, and its try/except swallows delete
failures without touching `new_checksums`. -/
def pushRun (old : Manifest) (vault : List LocalFile) (up : String → Option String) :
    PushOutcome :=
  let notes := get_all_notes vault
  let newC := newChecksums old notes
  let nf := pushNew old notes
  let mf := pushModified old notes
  let df := pushDeleted old notes
  if nf.isEmpty && mf.isEmpty && df.isEmpty then
    { saved := old, actions := [], aborted := false }
  else
    let r := uploadLoop up (nf ++ mf) newC []
    if r.2.2 then { saved := old, actions := r.2.1, aborted := true }
    else
      { saved := r.1,
        actions := r.2.1 ++
          (df.filter (fun p => ((dget old p).bind (fun e => e.drive_id)).isSome)).map
            PushAction.deleteRemote,
        aborted := false }

/-! ### Pull reconciler and executor (pullFromGoogle.py) -/

/-- What the remote scan records per file (pullFromGoogle.py lines
112-116): the Drive object id and its `modifiedTime`. -/
structure DriveInfo where
  id : String
  modified : String
deriving DecidableEq, Repr

/-- The `files_dict` produced by `list_drive_files`: relative path ↦
remote object info. -/
abbrev DriveMap := List (String × DriveInfo)

/-- The classification loop of `pull_from_google_drive` (lines 180-195),
the elif chain per remote path, in iteration order.  Returns
(`new_files`, `modified_files`).  `localExists p` models
`(VAULT_PATH / p).exists()`. -/
def pullClassifyLoop (man : Manifest) (localExists : String → Bool) :
    DriveMap → List String × List String
  | [] => ([], [])
  | (p, info) :: rest =>
    let nm := pullClassifyLoop man localExists rest
    match dget man p with
    | none => (p :: nm.1, nm.2)
    | some e =>
      if e.drive_id ≠ some info.id then (nm.1, p :: nm.2)
      else if e.drive_modified ≠ some info.modified then (nm.1, p :: nm.2)
      else if localExists p then nm
      else (p :: nm.1, nm.2)

/-- `deleted_files` of a pull run (lines 197-200): manifest paths absent
from the Drive scan. -/
def pullDeleted (man : Manifest) (drive : DriveMap) : List String :=
  (man.filter (fun kv => (dget drive kv.1).isNone)).map (fun kv => kv.1)

/-- Full pull classification: (`new_files`, `modified_files`,
`deleted_files`). -/
def pullClassify (drive : DriveMap) (man : Manifest) (localExists : String → Bool) :
    List String × List String × List String :=
  let nm := pullClassifyLoop man localExists drive
  (nm.1, nm.2, pullDeleted man drive)

/-- A local action issued by a pull run. -/
inductive PullAction where
  | download (p : String)
  | deleteLocal (p : String)
deriving DecidableEq, Repr

/-- Result of a pull run: the manifest left on disk and the actions
attempted against the local tree. -/
structure PullOutcome where
  saved : Manifest
  actions : List PullAction
deriving DecidableEq, Repr

/-- The download loop (lines 229-248).  `dl p = some (ck, mt)` means the
download succeeded and the re-hashed local file has checksum `ck` and
mtime `mt`; `none` means the transfer raised.  The body is wrapped in
try/except, so a failure only skips the manifest update for that path
and the loop continues.  Every classified path is a key of
`drive_files`, so the `getD` default is never reached. -/
def downloadLoop (drive : DriveMap) (dl : String → Option (String × String)) :
    List String → Manifest → List PullAction → Manifest × List PullAction
  | [], man, acts => (man, acts)
  | p :: ps, man, acts =>
    let info := (dget drive p).getD { id := "", modified := "" }
    match dl p with
    | some cm =>
      downloadLoop drive dl ps
        (dset man p
          { checksum := cm.1, modified := cm.2,
            drive_id := some info.id, drive_modified := some info.modified })
        (acts ++ [PullAction.download p])
    | none => downloadLoop drive dl ps man (acts ++ [PullAction.download p])

/-- The local delete loop (lines 250-260).  `delOk p = false` means
`local_path.unlink()` raised; the except swallows it, and because
`del local_checksums[p]` sits after the unlink inside the try, the
manifest entry survives.  When the local file is already absent the
unlink is skipped and the entry is deleted. -/
def deleteLoop (localExists : String → Bool) (delOk : String → Bool) :
    List String → Manifest → List PullAction → Manifest × List PullAction
  | [], man, acts => (man, acts)
  | p :: ps, man, acts =>
    let acts2 := acts ++ [PullAction.deleteLocal p]
    if localExists p then
      if delOk p then deleteLoop localExists delOk ps (ddel man p) acts2
      else deleteLoop localExists delOk ps man acts2
    else deleteLoop localExists delOk ps (ddel man p) acts2

/-- `pull_from_google_drive` (pullFromGoogle.py lines 163-269), starting
after the Drive scan, with `--dry-run` off.  On "No new changes" it
returns before any action and before `save_checksums`. -/
def pullRun (drive : DriveMap) (man : Manifest) (localExists : String → Bool)
    (dl : String → Option (String × String)) (delOk : String → Bool) : PullOutcome :=
  let c := pullClassify drive man localExists
  if c.1.isEmpty && c.2.1.isEmpty && c.2.2.isEmpty then
    { saved := man, actions := [] }
  else
    let dres := downloadLoop drive dl (c.1 ++ c.2.1) man []
    let eres := deleteLoop localExists delOk c.2.2 dres.1 dres.2
    { saved := eres.1, actions := eres.2 }

/-! ### Remote tree scanner (pullFromGoogle.py, list_drive_files) -/

/-- An object of the remote Drive hierarchy as the API reports it:
either a plain file (id, name, modifiedTime) or a folder with children.
The children list of a folder is what `files().list` would enumerate for
it, in the API's order. -/
inductive DriveItem where
  | file (name did modifiedTime : String)
  | folder (name : String) (children : List DriveItem)

/-- The extension filter of `list_drive_files` (lines 107-110). -/
def matchesExt (name : String) : Bool :=
  hasSuffix name ".md" || hasSuffix name ".txt" || hasSuffix name ".png" ||
  hasSuffix name ".jpg" || hasSuffix name ".jpeg" || hasSuffix name ".gif" ||
  hasSuffix name ".webp" || hasSuffix name ".svg"

/-- `f"{path}/{item_name}" if path else item_name` (lines 104 and 112). -/
def childPath (path name : String) : String :=
  if path = "" then name else path ++ "/" ++ name

/-- `files_dict.update(subfiles)` (line 106): later keys overwrite. -/
def dupdate (m sub : DriveMap) : DriveMap :=
  sub.foldl (fun acc kv => dset acc kv.1 kv.2) m

/-- The `for item in items` loop of `list_drive_files` (pullFromGoogle.py
lines 97-116) over the single page of at most 1000 children of one
folder: folders are recursed into (their own single page of 1000) and
merged with `dict.update`; matching files are recorded under their full
relative path by dict assignment.  The `page` argument is the remaining
page budget for the current folder: the code issues one
`files().list(..., pageSize=1000)` call per folder and never reads
`nextPageToken`, so each folder contributes at most its first 1000
children. -/
def scanItems (path : String) (page : Nat) (items : List DriveItem) (acc : DriveMap) :
    DriveMap :=
  match page, items with
  | _, [] => acc
  | 0, _ :: _ => acc
  | pg + 1, DriveItem.file n did mt :: rest =>
    scanItems path pg rest
      (if matchesExt n then dset acc (childPath path n) { id := did, modified := mt } else acc)
  | pg + 1, DriveItem.folder n cs :: rest =>
    scanItems path pg rest (dupdate acc (scanItems (childPath path n) 1000 cs []))
termination_by sizeOf items

/-- `list_drive_files` (pullFromGoogle.py lines 83-118): scan the single
page of children of the root folder with an empty accumulator. -/
def list_drive_files (path : String) (children : List DriveItem) : DriveMap :=
  scanItems path 1000 children []

/-! ### CLI / process-exit model (the scripts' `main`s and sync.py) -/

/-- push2Google.py `--init` (lines 305-317): records only the checksum
and mtime per scanned note — no Drive id, no remote timestamp. -/
def initChecksums (vault : List LocalFile) : Manifest :=
  (get_all_notes vault).map (fun f =>
    (f.path,
      { checksum := f.checksum, modified := f.modified,
        drive_id := none, drive_modified := none }))

/-- Exit status of `python pullFromGoogle.py`.  When the Google client
is unavailable (`GOOGLE_API_AVAILABLE` false or no credentials file),
`get_google_drive_service` returns `None` and `pull_from_google_drive`
returns at lines 166-167; `main` falls through and the interpreter exits
with status 0.  Otherwise every per-file failure inside the run is
caught (lines 233-248, 253-260), the run completes, and the exit status
is again 0. -/
def pull_from_google_drive_exit (available : Bool) (drive : DriveMap) (man : Manifest)
    (localExists : String → Bool) (dl : String → Option (String × String))
    (delOk : String → Bool) : Nat :=
  if available = false then 0
  else
    let _run := pullRun drive man localExists dl delOk
    0

/-- Exit status of `python push2Google.py`.  Collaborator unavailable:
`sync_to_google_drive` returns at lines 165-166, exit 0.  A failing
upload raises out of `sync_to_google_drive` and `main` (nothing catches
it), so the interpreter exits non-zero.  Otherwise 0. -/
def sync_to_google_drive_exit (available : Bool) (old : Manifest) (vault : List LocalFile)
    (up : String → Option String) : Nat :=
  if available = false then 0
  else if (pushRun old vault up).aborted then 1
  else 0

/-- sync.py `main` (lines 44-54): runs the pull script, exits 1 if its
return code is non-zero, then the push script, exits 1 if its return
code is non-zero, else falls through with status 0. -/
def sync_main_exit (pullExit pushExit : Nat) : Nat :=
  if pullExit ≠ 0 then 1 else if pushExit ≠ 0 then 1 else 0

/-! ### Empty-directory compactor (pullFromGoogle.py, cleanup_empty_folders) -/

/-- A local directory entry as seen by the compactor. -/
inductive FsEntry where
  | file (name : String)
  | dir (name : String) (children : List FsEntry)

/-- The preserve set of `cleanup_empty_folders` (line 150). -/
def PRESERVE_FOLDERS : List String := ["img", "weekly", "neovim"]

/-- `cleanup_empty_folders` (pullFromGoogle.py lines 147-161) applied to
the children of a directory: files are untouched; each subdirectory is
cleaned recursively first (bottom-up), then removed iff it has no
remaining entries and its lowercased name is not in the preserve set.
(The try/except only guards filesystem races, which the model's
idealized tree does not have; the root itself is never a candidate for
removal.) -/
def cleanupChildren : List FsEntry → List FsEntry
  | [] => []
  | FsEntry.file n :: rest => FsEntry.file n :: cleanupChildren rest
  | FsEntry.dir n cs :: rest =>
    let cleaned := cleanupChildren cs
    if cleaned.isEmpty && !(PRESERVE_FOLDERS.contains (lowerStr n)) then cleanupChildren rest
    else FsEntry.dir n cleaned :: cleanupChildren rest

/-! ### Scanner unfolding lemmas -/

theorem scanItems_nil (path : String) (page : Nat) (acc : DriveMap) :
    scanItems path page [] acc = acc := by
  cases page <;> simp [scanItems]

theorem scanItems_file (path : String) (pg : Nat) (n did mt : String)
    (rest : List DriveItem) (acc : DriveMap) :
    scanItems path (pg + 1) (DriveItem.file n did mt :: rest) acc =
      scanItems path pg rest
        (if matchesExt n then dset acc (childPath path n) { id := did, modified := mt }
         else acc) := by
  simp [scanItems]

theorem scanItems_folder (path : String) (pg : Nat) (n : String)
    (cs rest : List DriveItem) (acc : DriveMap) :
    scanItems path (pg + 1) (DriveItem.folder n cs :: rest) acc =
      scanItems path pg rest (dupdate acc (list_drive_files (childPath path n) cs)) := by
  rw [list_drive_files]
  simp [scanItems]

/-- Claim C6, counterexample: two distinct remote files both named
`a.md` in the same folder describe the same relative path; the scanner
raises no error and the produced map silently retains only the
later-listed object (id "2"), dropping id "1". -/
theorem c6_counterexample :
    list_drive_files "" [DriveItem.file "a.md" "1" "T1", DriveItem.file "a.md" "2" "T2"]
      = [("a.md", { id := "2", modified := "T2" })] := by
  rw [list_drive_files, show (1000 : Nat) = 999 + 1 by norm_num, scanItems_file,
    show (999 : Nat) = 998 + 1 by norm_num, scanItems_file, scanItems_nil]
  norm_num [matchesExt, hasSuffix, childPath, dset]

/-- Claim C6, amended: when two distinct remote objects describe the
same relative path, `list_drive_files` silently merges them by dict
assignment — the produced map holds exactly one entry for that path,
the later-listed object's info. -/
theorem c6_amended (n i1 t1 i2 t2 : String) (h : matchesExt n = true) :
    list_drive_files "" [DriveItem.file n i1 t1, DriveItem.file n i2 t2]
      = [(n, { id := i2, modified := t2 })] := by
  rw [list_drive_files, show (1000 : Nat) = 999 + 1 by norm_num, scanItems_file,
    show (999 : Nat) = 998 + 1 by norm_num, scanItems_file, scanItems_nil]
  simp [h, childPath, dset]

/-- Claim C6, witness for the amended theorem at a concrete collision. -/
theorem c6_amended_witness :
    matchesExt "a.md" = true ∧
    list_drive_files "" [DriveItem.file "a.md" "id1" "T1", DriveItem.file "a.md" "id2" "T2"]
      = [("a.md", { id := "id2", modified := "T2" })] :=
  ⟨by decide, c6_amended "a.md" "id1" "T1" "id2" "T2" (by decide)⟩

/-- Claim C2, counterexample: a vault holding only `photo.png` — an
image file of the claimed extension set — yields an empty local scan,
and when that path is tracked in the manifest the push classifier lists
it as locally deleted. -/
theorem c2_counterexample :
    get_all_notes [{ path := "photo.png", checksum := "H", modified := "M" }] = [] ∧
    pushDeleted
        [("photo.png",
          { checksum := "H", modified := "M", drive_id := some "R", drive_modified := none })]
        (get_all_notes [{ path := "photo.png", checksum := "H", modified := "M" }])
      = ["photo.png"] := by
  constructor <;> decide

/-- Claim C2, amended: `get_all_notes` enumerates only files whose name
ends in `.md`; any vault file without that suffix is missing from the
scan and, when tracked in the manifest, is classified as locally deleted
by the push run. -/
theorem c2_amended (vault : List LocalFile) (old : Manifest) (f : LocalFile) (e : Entry)
    (hmem : f ∈ vault) (hext : hasSuffix f.path ".md" = false)
    (hman : (f.path, e) ∈ old) :
    f ∉ get_all_notes vault ∧ f.path ∈ pushDeleted old (get_all_notes vault) := by
  constructor
  · intro hin
    have := (List.mem_filter.mp hin).2
    simp [hext] at this
  · have hany : (get_all_notes vault).any (fun g => g.path == f.path) = false := by
      by_contra hc
      rw [Bool.not_eq_false, List.any_eq_true] at hc
      obtain ⟨g, hg, hbeq⟩ := hc
      have hgext : hasSuffix g.path ".md" = true := by
        have := (List.mem_filter.mp hg).2
        simpa using this
      have hgp : g.path = f.path := by simpa using hbeq
      rw [hgp, hext] at hgext
      simp at hgext
    exact List.mem_map_of_mem _ (List.mem_filter.mpr ⟨hman, by simp [hany]⟩)

/-- Claim C2, witness for the amended theorem at a concrete image file. -/
theorem c2_amended_witness :
    ({ path := "photo.png", checksum := "H", modified := "M" } : LocalFile)
        ∈ [({ path := "photo.png", checksum := "H", modified := "M" } : LocalFile)] ∧
    hasSuffix "photo.png" ".md" = false ∧
    (("photo.png",
        ({ checksum := "H", modified := "M", drive_id := some "R", drive_modified := none } : Entry))
      ∈ [("photo.png",
          ({ checksum := "H", modified := "M", drive_id := some "R", drive_modified := none } : Entry))]) ∧
    (({ path := "photo.png", checksum := "H", modified := "M" } : LocalFile)
        ∉ get_all_notes [{ path := "photo.png", checksum := "H", modified := "M" }] ∧
      "photo.png" ∈ pushDeleted
        [("photo.png",
          { checksum := "H", modified := "M", drive_id := some "R", drive_modified := none })]
        (get_all_notes [{ path := "photo.png", checksum := "H", modified := "M" }])) :=
  ⟨by simp, by decide, by simp,
    c2_amended [{ path := "photo.png", checksum := "H", modified := "M" }]
      [("photo.png",
        { checksum := "H", modified := "M", drive_id := some "R", drive_modified := none })]
      { path := "photo.png", checksum := "H", modified := "M" }
      { checksum := "H", modified := "M", drive_id := some "R", drive_modified := none }
      (by simp) (by decide) (by simp)⟩

/-- Claim C1, evaluation at the failing scenario: vault holds only
`notes/a.md` (hash H1), manifest and remote start empty.  The push run
does upload `a.md` and records a manifest entry with hash H1 and the
remote object id — but that entry has no `drive_modified` field, so for
every id `rid` the upload returns and every `modifiedTime` `t` the
remote then reports, the immediately following pull run classifies
`notes/a.md` as modified (one download), not zero actions. -/
theorem c1_second_run_not_empty (rid t : String) :
    (pushRun [] [{ path := "notes/a.md", checksum := "H1", modified := "M1" }]
        (fun _ => some rid)).actions = [PushAction.upload "notes/a.md"] ∧
    (pushRun [] [{ path := "notes/a.md", checksum := "H1", modified := "M1" }]
        (fun _ => some rid)).saved
      = [("notes/a.md",
          { checksum := "H1", modified := "M1", drive_id := some rid,
            drive_modified := none })] ∧
    pullClassify [("notes/a.md", { id := rid, modified := t })]
        (pushRun [] [{ path := "notes/a.md", checksum := "H1", modified := "M1" }]
            (fun _ => some rid)).saved
        (fun _ => true)
      = ([], ["notes/a.md"], []) := by
  refine ⟨rfl, rfl, ?_⟩
  show pullClassify [("notes/a.md", { id := rid, modified := t })]
      [("notes/a.md",
        { checksum := "H1", modified := "M1", drive_id := some rid,
          drive_modified := none })]
      (fun _ => true) = ([], ["notes/a.md"], [])
  simp [pullClassify, pullClassifyLoop, pullDeleted, dget]

/-! ### Executor loop lemmas -/

/-- The pull download loop attempts every classified path, in order,
whatever the transfer oracle answers. -/
theorem downloadLoop_acts (drive : DriveMap) (dl : String → Option (String × String)) :
    ∀ (ps : List String) (man : Manifest) (acts : List PullAction),
      (downloadLoop drive dl ps man acts).2 = acts ++ ps.map PullAction.download := by
  intro ps
  induction ps with
  | nil => intro man acts; simp [downloadLoop]
  | cons p ps ih =>
    intro man acts
    cases hdl : dl p <;> simp [downloadLoop, hdl, ih]

/-- The pull delete loop attempts every classified path, in order,
whatever the filesystem answers. -/
theorem deleteLoop_acts (le delOk : String → Bool) :
    ∀ (ps : List String) (man : Manifest) (acts : List PullAction),
      (deleteLoop le delOk ps man acts).2 = acts ++ ps.map PullAction.deleteLocal := by
  intro ps
  induction ps with
  | nil => intro man acts; simp [deleteLoop]
  | cons p ps ih =>
    intro man acts
    by_cases hle : le p <;> by_cases hok : delOk p <;> simp [deleteLoop, hle, hok, ih]

/-- The push upload loop only ever appends upload actions. -/
theorem uploadLoop_acts (up : String → Option String) :
    ∀ (ps : List String) (man : Manifest) (acts : List PushAction),
      ∃ qs : List String,
        (uploadLoop up ps man acts).2.1 = acts ++ qs.map PushAction.upload := by
  intro ps
  induction ps with
  | nil => intro man acts; exact ⟨[], by simp [uploadLoop]⟩
  | cons p ps ih =>
    intro man acts
    cases hup : up p with
    | some did =>
      obtain ⟨qs, hqs⟩ := ih (setDriveId man p did) (acts ++ [PushAction.upload p])
      exact ⟨p :: qs, by simp [uploadLoop, hup, hqs]⟩
    | none => exact ⟨[p], by simp [uploadLoop, hup]⟩

/-- Claim C8: in every run of either direction, the executed action
sequence is a block of create/update transfers (downloads in pull,
uploads in push) followed by a block of deletions (delete-local in pull,
delete-remote in push) — transfers always come before deletions. -/
theorem c8_transfers_before_deletions :
    (∀ (drive : DriveMap) (man : Manifest) (le : String → Bool)
        (dl : String → Option (String × String)) (delOk : String → Bool),
      ∃ ts ds, (pullRun drive man le dl delOk).actions = ts ++ ds ∧
        (∀ a ∈ ts, ∃ p, a = PullAction.download p) ∧
        (∀ a ∈ ds, ∃ p, a = PullAction.deleteLocal p)) ∧
    (∀ (old : Manifest) (vault : List LocalFile) (up : String → Option String),
      ∃ ts ds, (pushRun old vault up).actions = ts ++ ds ∧
        (∀ a ∈ ts, ∃ p, a = PushAction.upload p) ∧
        (∀ a ∈ ds, ∃ p, a = PushAction.deleteRemote p)) := by
  constructor
  · intro drive man le dl delOk
    rw [pullRun]
    set c := pullClassify drive man le with hc
    by_cases hempty : (c.1.isEmpty && c.2.1.isEmpty && c.2.2.isEmpty) = true
    · exact ⟨[], [], by simp [hempty], by simp, by simp⟩
    · refine ⟨(c.1 ++ c.2.1).map PullAction.download, c.2.2.map PullAction.deleteLocal,
        ?_, ?_, ?_⟩
      · simp only [hempty]
        rw [if_neg (by simp [hempty])]
        rw [deleteLoop_acts, downloadLoop_acts]
        simp
      · intro a ha
        obtain ⟨p, _, hp⟩ := List.mem_map.mp ha
        exact ⟨p, hp.symm⟩
      · intro a ha
        obtain ⟨p, _, hp⟩ := List.mem_map.mp ha
        exact ⟨p, hp.symm⟩
  · intro old vault up
    rw [pushRun]
    set notes := get_all_notes vault with hnotes
    by_cases hempty : ((pushNew old notes).isEmpty && (pushModified old notes).isEmpty
        && (pushDeleted old notes).isEmpty) = true
    · exact ⟨[], [], by simp [hempty], by simp, by simp⟩
    · obtain ⟨qs, hqs⟩ :=
        uploadLoop_acts up (pushNew old notes ++ pushModified old notes)
          (newChecksums old notes) []
      rw [if_neg (by simp_all)]
      rcases hloop : uploadLoop up (pushNew old notes ++ pushModified old notes)
          (newChecksums old notes) [] with ⟨man1, acts1, ab⟩
      have hacts1 : acts1 = qs.map PushAction.upload := by
        rw [hloop] at hqs
        simpa using hqs
      cases ab
      · refine ⟨qs.map PushAction.upload,
          ((pushDeleted old notes).filter
            (fun p => ((dget old p).bind (fun e => e.drive_id)).isSome)).map
              PushAction.deleteRemote, by simp [hacts1], ?_, ?_⟩
        · intro a ha
          obtain ⟨p, _, hp⟩ := List.mem_map.mp ha
          exact ⟨p, hp.symm⟩
        · intro a ha
          obtain ⟨p, _, hp⟩ := List.mem_map.mp ha
          exact ⟨p, hp.symm⟩
      · refine ⟨qs.map PushAction.upload, [], by simp [hacts1], ?_, by simp⟩
        intro a ha
        obtain ⟨p, _, hp⟩ := List.mem_map.mp ha
        exact ⟨p, hp.symm⟩

/-! ### Manifest-preservation lemmas for the executors -/

theorem setDriveId_cons (k : String) (w : Entry) (rest : Manifest) (q did : String) :
    setDriveId ((k, w) :: rest) q did =
      (if k = q then (k, { w with drive_id := some did }) else (k, w)) :: setDriveId rest q did :=
  rfl

theorem setDriveId_dget_none {m : Manifest} {p : String} (q did : String)
    (h : dget m p = none) : dget (setDriveId m q did) p = none := by
  induction m with
  | nil => simp [setDriveId]
  | cons kv rest ih =>
    obtain ⟨k, w⟩ := kv
    rw [dget_cons] at h
    by_cases hkp : k = p
    · simp [hkp] at h
    · rw [if_neg hkp] at h
      rw [setDriveId_cons]
      by_cases hkq : k = q
      · rw [if_pos hkq, dget_cons, if_neg hkp]
        exact ih h
      · rw [if_neg hkq, dget_cons, if_neg hkp]
        exact ih h

theorem uploadLoop_dget_none (up : String → Option String) (p : String) :
    ∀ (ps : List String) (man : Manifest) (acts : List PushAction),
      dget man p = none → dget (uploadLoop up ps man acts).1 p = none := by
  intro ps
  induction ps with
  | nil => intro man acts h; simpa [uploadLoop] using h
  | cons q ps ih =>
    intro man acts h
    cases hup : up q with
    | some did => simpa [uploadLoop, hup] using ih _ _ (setDriveId_dget_none q did h)
    | none => simpa [uploadLoop, hup] using h

theorem newChecksums_dget_none (old : Manifest) (p : String) :
    ∀ notes : List LocalFile, (∀ f ∈ notes, f.path ≠ p) →
      dget (newChecksums old notes) p = none := by
  intro notes
  induction notes with
  | nil => intro _; simp [newChecksums]
  | cons f fs ih =>
    intro h
    have hf : f.path ≠ p := h f (List.mem_cons_self f fs)
    simpa [newChecksums, dget, hf] using ih (fun g hg => h g (List.mem_cons_of_mem f hg))

theorem pushDeleted_not_scanned {old : Manifest} {notes : List LocalFile} {p : String}
    (h : p ∈ pushDeleted old notes) : ∀ f ∈ notes, f.path ≠ p := by
  obtain ⟨kv, hkv, hfst⟩ := List.mem_map.mp h
  have hcond := (List.mem_filter.mp hkv).2
  intro f hf heq
  rw [Bool.not_eq_true'] at hcond
  have : notes.any (fun g => g.path == kv.1) = true :=
    List.any_eq_true.mpr ⟨f, hf, by simp [heq, hfst]⟩
  rw [this] at hcond
  simp at hcond

theorem downloadLoop_dget_failed (drive : DriveMap)
    (dl : String → Option (String × String)) (p : String) (hdl : dl p = none) :
    ∀ (ps : List String) (man : Manifest) (acts : List PullAction),
      dget (downloadLoop drive dl ps man acts).1 p = dget man p := by
  intro ps
  induction ps with
  | nil => intro man acts; simp [downloadLoop]
  | cons q ps ih =>
    intro man acts
    cases hq : dl q with
    | some cm =>
      have hne : p ≠ q := by
        intro he
        rw [he, hq] at hdl
        exact Option.noConfusion hdl
      simp [downloadLoop, hq, ih, dget_dset_ne _ _ _ _ hne]
    | none => simp [downloadLoop, hq, ih]

theorem downloadLoop_dget_not_mem (drive : DriveMap)
    (dl : String → Option (String × String)) (p : String) :
    ∀ (ps : List String) (man : Manifest) (acts : List PullAction), p ∉ ps →
      dget (downloadLoop drive dl ps man acts).1 p = dget man p := by
  intro ps
  induction ps with
  | nil => intro man acts _; simp [downloadLoop]
  | cons q ps ih =>
    intro man acts hnm
    have hne : p ≠ q := fun he => hnm (he ▸ List.mem_cons_self q ps)
    have hps : p ∉ ps := fun hx => hnm (List.mem_cons_of_mem q hx)
    cases hq : dl q with
    | some cm => simp [downloadLoop, hq, ih _ _ hps, dget_dset_ne _ _ _ _ hne]
    | none => simp [downloadLoop, hq, ih _ _ hps]

theorem deleteLoop_dget_kept (le delOk : String → Bool) (p : String)
    (hle : le p = true) (hok : delOk p = false) :
    ∀ (ps : List String) (man : Manifest) (acts : List PullAction),
      dget (deleteLoop le delOk ps man acts).1 p = dget man p := by
  intro ps
  induction ps with
  | nil => intro man acts; simp [deleteLoop]
  | cons q ps ih =>
    intro man acts
    by_cases hpq : p = q
    · subst hpq
      simp [deleteLoop, hle, hok, ih]
    · by_cases hleq : le q <;> by_cases hokq : delOk q <;>
        simp [deleteLoop, hleq, hokq, ih, dget_ddel_ne _ _ _ hpq]

theorem deleteLoop_dget_not_mem (le delOk : String → Bool) (p : String) :
    ∀ (ps : List String) (man : Manifest) (acts : List PullAction), p ∉ ps →
      dget (deleteLoop le delOk ps man acts).1 p = dget man p := by
  intro ps
  induction ps with
  | nil => intro man acts _; simp [deleteLoop]
  | cons q ps ih =>
    intro man acts hnm
    have hne : p ≠ q := fun he => hnm (he ▸ List.mem_cons_self q ps)
    have hps : p ∉ ps := fun hx => hnm (List.mem_cons_of_mem q hx)
    by_cases hleq : le q <;> by_cases hokq : delOk q <;>
      simp [deleteLoop, hleq, hokq, ih _ _ hps, dget_ddel_ne _ _ _ hne]

/-- Every path the pull classification loop emits (as new or modified)
comes from a pair of the Drive scan. -/
theorem pullClassifyLoop_mem_drive (man : Manifest) (le : String → Bool) (p : String) :
    ∀ drive : DriveMap,
      p ∈ (pullClassifyLoop man le drive).1 ∨ p ∈ (pullClassifyLoop man le drive).2 →
      ∃ info, (p, info) ∈ drive := by
  intro drive
  induction drive with
  | nil => intro h; simp [pullClassifyLoop] at h
  | cons kv rest ih =>
    obtain ⟨q, info⟩ := kv
    intro h
    by_cases hpq : p = q
    · exact ⟨info, by simp [hpq]⟩
    · have hrest : p ∈ (pullClassifyLoop man le rest).1 ∨
          p ∈ (pullClassifyLoop man le rest).2 := by
        rcases hdg : dget man q with _ | e
        · simp only [pullClassifyLoop, hdg] at h
          rcases h with h | h
          · rcases List.mem_cons.mp h with h | h
            · exact absurd h hpq
            · exact Or.inl h
          · exact Or.inr h
        · simp only [pullClassifyLoop, hdg] at h
          by_cases h1 : e.drive_id ≠ some info.id
          · rw [if_pos h1] at h
            rcases h with h | h
            · exact Or.inl h
            · rcases List.mem_cons.mp h with h | h
              · exact absurd h hpq
              · exact Or.inr h
          · rw [if_neg h1] at h
            by_cases h2 : e.drive_modified ≠ some info.modified
            · rw [if_pos h2] at h
              rcases h with h | h
              · exact Or.inl h
              · rcases List.mem_cons.mp h with h | h
                · exact absurd h hpq
                · exact Or.inr h
            · rw [if_neg h2] at h
              by_cases h3 : le q = true
              · rw [if_pos h3] at h
                exact h
              · rw [if_neg h3] at h
                rcases h with h | h
                · rcases List.mem_cons.mp h with h | h
                  · exact absurd h hpq
                  · exact Or.inl h
                · exact Or.inr h
      obtain ⟨info2, hinfo2⟩ := ih hrest
      exact ⟨info2, List.mem_cons_of_mem _ hinfo2⟩

/-- Every path in a pull run's deleted list is absent from the scan. -/
theorem pullDeleted_isNone {man : Manifest} {drive : DriveMap} {p : String}
    (h : p ∈ pullDeleted man drive) : dget drive p = none := by
  obtain ⟨kv, hkv, hfst⟩ := List.mem_map.mp h
  have hcond := (List.mem_filter.mp hkv).2
  rw [hfst] at hcond
  simpa [Option.isNone_iff_eq_none] using hcond

/-- Claim C4, counterexample: a push run over a fresh vault with two new
files `a.md` and `b.md`, where the single upload of `a.md` fails.  The
failure is not caught: the run aborts, the other action of the batch
(the upload of `b.md`) never executes, and no manifest is saved. -/
theorem c4_counterexample :
    pushRun []
        [{ path := "a.md", checksum := "H1", modified := "M1" },
         { path := "b.md", checksum := "H2", modified := "M2" }]
        (fun p => if p = "a.md" then none else some "R")
      = { saved := [], actions := [PushAction.upload "a.md"], aborted := true } := by
  decide

/-- Claim C4, amended: per-action failure isolation holds for the pull
executor but not for push uploads.  (1) A failed pull download is caught
and skipped: the failed path's manifest entry is unmodified and every
action of the batch is still attempted.  (2) A failed local delete
(unlink raises on an existing file) is caught and the entry is kept.
(3) A push upload failure is not caught: the run aborts and the manifest
file keeps its old contents entirely.  (4) A push delete-remote failure
is caught and other actions execute, but — delete succeeding or not —
the dropped path never survives into the saved manifest, so a failed
remote delete is not retried. -/
theorem c4_amended :
    (∀ (drive : DriveMap) (man : Manifest) (le : String → Bool)
        (dl : String → Option (String × String)) (delOk : String → Bool) (p : String),
      dl p = none →
      p ∈ (pullClassify drive man le).1 ++ (pullClassify drive man le).2.1 →
      dget (pullRun drive man le dl delOk).saved p = dget man p ∧
      (pullRun drive man le dl delOk).actions
        = ((pullClassify drive man le).1 ++ (pullClassify drive man le).2.1).map
            PullAction.download
          ++ (pullClassify drive man le).2.2.map PullAction.deleteLocal) ∧
    (∀ (drive : DriveMap) (man : Manifest) (le : String → Bool)
        (dl : String → Option (String × String)) (delOk : String → Bool) (p : String),
      p ∈ (pullClassify drive man le).2.2 → le p = true → delOk p = false →
      dget (pullRun drive man le dl delOk).saved p = dget man p) ∧
    (∀ (old : Manifest) (vault : List LocalFile) (up : String → Option String),
      (pushRun old vault up).aborted = true → (pushRun old vault up).saved = old) ∧
    (∀ (old : Manifest) (vault : List LocalFile) (up : String → Option String) (p : String),
      (pushRun old vault up).aborted = false →
      p ∈ pushDeleted old (get_all_notes vault) →
      dget (pushRun old vault up).saved p = none) := by
  refine ⟨?_, ?_, ?_, ?_⟩
  · intro drive man le dl delOk p hdl hmem
    set c := pullClassify drive man le with hc
    have hnotdel : p ∉ c.2.2 := by
      intro hdel
      obtain ⟨info, hinfo⟩ := pullClassifyLoop_mem_drive man le p drive
        (by rcases List.mem_append.mp hmem with h | h
            · exact Or.inl h
            · exact Or.inr h)
      have h1 := dget_isSome_of_mem hinfo
      have h2 := @pullDeleted_isNone man drive p hdel
      rw [h2] at h1
      simp at h1
    have h1e : (c.1.isEmpty && c.2.1.isEmpty && c.2.2.isEmpty) = false := by
      rcases List.mem_append.mp hmem with h | h
      · cases hc1 : c.1 with
        | nil => rw [hc1] at h; simp at h
        | cons x xs => simp [hc1]
      · cases hc1 : c.2.1 with
        | nil => rw [hc1] at h; simp at h
        | cons x xs => simp [hc1]
    rw [pullRun]
    rw [← hc, h1e]
    simp only [Bool.false_eq_true, if_false]
    constructor
    · rw [deleteLoop_dget_not_mem le delOk p _ _ _ hnotdel,
        downloadLoop_dget_failed drive dl p hdl]
    · rw [deleteLoop_acts, downloadLoop_acts]
      simp
  · intro drive man le dl delOk p hdel hle hok
    set c := pullClassify drive man le with hc
    have hnotdm : p ∉ c.1 ++ c.2.1 := by
      intro hmem
      obtain ⟨info, hinfo⟩ := pullClassifyLoop_mem_drive man le p drive
        (by rcases List.mem_append.mp hmem with h | h
            · exact Or.inl h
            · exact Or.inr h)
      have h1 := dget_isSome_of_mem hinfo
      have h2 := @pullDeleted_isNone man drive p hdel
      rw [h2] at h1
      simp at h1
    have h1e : (c.1.isEmpty && c.2.1.isEmpty && c.2.2.isEmpty) = false := by
      cases hc1 : c.2.2 with
      | nil => rw [hc1] at hdel; simp at hdel
      | cons x xs => simp [hc1]
    rw [pullRun]
    rw [← hc, h1e]
    simp only [Bool.false_eq_true, if_false]
    rw [deleteLoop_dget_kept le delOk p hle hok,
      downloadLoop_dget_not_mem drive dl p _ _ _ hnotdm]
  · intro old vault up h
    rw [pushRun] at h ⊢
    by_cases hempty : ((pushNew old (get_all_notes vault)).isEmpty &&
        (pushModified old (get_all_notes vault)).isEmpty &&
        (pushDeleted old (get_all_notes vault)).isEmpty) = true
    · rw [hempty] at h
      simp at h
    · rw [Bool.not_eq_true] at hempty
      rw [hempty] at h ⊢
      simp only [Bool.false_eq_true, if_false] at h ⊢
      rcases hloop : uploadLoop up
          (pushNew old (get_all_notes vault) ++ pushModified old (get_all_notes vault))
          (newChecksums old (get_all_notes vault)) [] with ⟨m1, a1, ab⟩
      rw [hloop] at h
      cases ab
      · simp at h
      · simp
  · intro old vault up p hnab hdel
    have hscan := pushDeleted_not_scanned hdel
    have hnewC := newChecksums_dget_none old p (get_all_notes vault) hscan
    have hempty : ((pushNew old (get_all_notes vault)).isEmpty &&
        (pushModified old (get_all_notes vault)).isEmpty &&
        (pushDeleted old (get_all_notes vault)).isEmpty) = false := by
      cases hc1 : pushDeleted old (get_all_notes vault) with
      | nil => rw [hc1] at hdel; simp at hdel
      | cons x xs => simp [hc1]
    rw [pushRun] at hnab ⊢
    rw [hempty] at hnab ⊢
    simp only [Bool.false_eq_true, if_false] at hnab ⊢
    rcases hloop : uploadLoop up
        (pushNew old (get_all_notes vault) ++ pushModified old (get_all_notes vault))
        (newChecksums old (get_all_notes vault)) [] with ⟨m1, a1, ab⟩
    rw [hloop] at hnab
    cases ab
    · have hm1 : dget m1 p = none := by
        have := uploadLoop_dget_none up p
          (pushNew old (get_all_notes vault) ++ pushModified old (get_all_notes vault))
          (newChecksums old (get_all_notes vault)) [] hnewC
        rw [hloop] at this
        exact this
      simpa using hm1
    · simp at hnab

/-- Claim C4, witness: the amended theorem applied to concrete runs —
a failed pull download, a failed local delete, a failed push upload, and
a push delete of an untracked-locally path. -/
theorem c4_amended_witness :
    (dget (pullRun [("a.md", { id := "1", modified := "T" })] []
        (fun _ => false) (fun _ => none) (fun _ => true)).saved "a.md"
      = dget ([] : Manifest) "a.md" ∧
     (pullRun [("a.md", { id := "1", modified := "T" })] []
        (fun _ => false) (fun _ => none) (fun _ => true)).actions
      = ((pullClassify [("a.md", { id := "1", modified := "T" })] [] (fun _ => false)).1
          ++ (pullClassify [("a.md", { id := "1", modified := "T" })] [] (fun _ => false)).2.1).map
            PullAction.download
        ++ (pullClassify [("a.md", { id := "1", modified := "T" })] []
            (fun _ => false)).2.2.map PullAction.deleteLocal) ∧
    dget (pullRun []
        [("c.md",
          { checksum := "H", modified := "M", drive_id := some "R", drive_modified := some "T" })]
        (fun _ => true) (fun _ => none) (fun _ => false)).saved "c.md"
      = dget [("c.md",
          { checksum := "H", modified := "M", drive_id := some "R",
            drive_modified := some "T" })] "c.md" ∧
    (pushRun [] [{ path := "a.md", checksum := "H1", modified := "M1" }]
        (fun _ => none)).saved = [] ∧
    dget (pushRun
        [("d.md",
          { checksum := "H", modified := "M", drive_id := some "R", drive_modified := none })]
        [] (fun _ => some "X")).saved "d.md" = none :=
  ⟨c4_amended.1 [("a.md", { id := "1", modified := "T" })] [] (fun _ => false)
      (fun _ => none) (fun _ => true) "a.md" rfl (by decide),
   c4_amended.2.1 []
      [("c.md",
        { checksum := "H", modified := "M", drive_id := some "R", drive_modified := some "T" })]
      (fun _ => true) (fun _ => none) (fun _ => false) "c.md" (by decide) rfl rfl,
   c4_amended.2.2.1 [] [{ path := "a.md", checksum := "H1", modified := "M1" }]
      (fun _ => none) (by decide),
   c4_amended.2.2.2
      [("d.md",
        { checksum := "H", modified := "M", drive_id := some "R", drive_modified := none })]
      [] (fun _ => some "X") "d.md" (by decide) (by decide)⟩

/-- Processing one more Drive entry at the head never removes a path
already classified by the rest of the scan. -/
theorem pullClassifyLoop_cons_mono (man : Manifest) (le : String → Bool)
    (q : String) (qinfo : DriveInfo) (rest : DriveMap) (p : String) :
    (p ∈ (pullClassifyLoop man le rest).1 →
      p ∈ (pullClassifyLoop man le ((q, qinfo) :: rest)).1) ∧
    (p ∈ (pullClassifyLoop man le rest).2 →
      p ∈ (pullClassifyLoop man le ((q, qinfo) :: rest)).2) := by
  rcases hdg : dget man q with _ | e
  · constructor
    · intro h
      simp only [pullClassifyLoop, hdg]
      exact List.mem_cons_of_mem _ h
    · intro h
      simp only [pullClassifyLoop, hdg]
      exact h
  · simp only [pullClassifyLoop, hdg]
    by_cases h1 : e.drive_id ≠ some qinfo.id
    · rw [if_pos h1]
      exact ⟨fun h => h, fun h => List.mem_cons_of_mem _ h⟩
    · rw [if_neg h1]
      by_cases h2 : e.drive_modified ≠ some qinfo.modified
      · rw [if_pos h2]
        exact ⟨fun h => h, fun h => List.mem_cons_of_mem _ h⟩
      · rw [if_neg h2]
        by_cases h3 : le q = true
        · rw [if_pos h3]
          exact ⟨fun h => h, fun h => h⟩
        · rw [if_neg h3]
          exact ⟨fun h => List.mem_cons_of_mem _ h, fun h => h⟩

/-- A Drive path that is tracked in the manifest but whose local file is
absent is always classified by the pull loop, as new or as modified. -/
theorem pullClassifyLoop_mem_of_absent (man : Manifest) (le : String → Bool)
    (p : String) :
    ∀ (drive : DriveMap) (info : DriveInfo), (p, info) ∈ drive →
      (dget man p).isSome = true → le p = false →
      p ∈ (pullClassifyLoop man le drive).1 ∨ p ∈ (pullClassifyLoop man le drive).2 := by
  intro drive
  induction drive with
  | nil => intro info h _ _; simp at h
  | cons kv rest ih =>
    obtain ⟨q, qinfo⟩ := kv
    intro info hmem hsome hle
    rcases List.mem_cons.mp hmem with hhead | htail
    · obtain ⟨hq, hqinfo⟩ := Prod.mk.injEq .. ▸ hhead
      subst hq
      subst hqinfo
      obtain ⟨e, he⟩ := Option.isSome_iff_exists.mp hsome
      simp only [pullClassifyLoop, he]
      by_cases h1 : e.drive_id ≠ some info.id
      · rw [if_pos h1]
        exact Or.inr (List.mem_cons_self _ _)
      · rw [if_neg h1]
        by_cases h2 : e.drive_modified ≠ some info.modified
        · rw [if_pos h2]
          exact Or.inr (List.mem_cons_self _ _)
        · rw [if_neg h2]
          rw [hle]
          simp only [Bool.false_eq_true, if_false]
          exact Or.inl (List.mem_cons_self _ _)
    · rcases ih info htail hsome hle with h | h
      · exact Or.inl ((pullClassifyLoop_cons_mono man le q qinfo rest p).1 h)
      · exact Or.inr ((pullClassifyLoop_cons_mono man le q qinfo rest p).2 h)

/-- Claim C7: in the pull direction, a path present in both the remote
scan and the manifest whose local file is physically absent is
classified for download (it lands in `new_files` or `modified_files`),
and it is never classified as a local deletion while the remote copy
exists. -/
theorem c7_pull_restores_missing_local (drive : DriveMap) (man : Manifest)
    (le : String → Bool) (p : String) (info : DriveInfo)
    (hdrive : (p, info) ∈ drive) (hman : (dget man p).isSome = true)
    (hlocal : le p = false) :
    p ∈ (pullClassify drive man le).1 ++ (pullClassify drive man le).2.1 ∧
    p ∉ (pullClassify drive man le).2.2 := by
  constructor
  · rcases pullClassifyLoop_mem_of_absent man le p drive info hdrive hman hlocal with h | h
    · exact List.mem_append.mpr (Or.inl h)
    · exact List.mem_append.mpr (Or.inr h)
  · intro hdel
    have h2 := @pullDeleted_isNone man drive p hdel
    have h1 := dget_isSome_of_mem hdrive
    rw [h2] at h1
    simp at h1

/-- Claim C7, witness: a tracked path whose local copy is gone while the
remote object still exists is classified for download and not deleted. -/
theorem c7_witness :
    (("a.md", ({ id := "1", modified := "T" } : DriveInfo))
        ∈ [("a.md", ({ id := "1", modified := "T" } : DriveInfo))]) ∧
    (dget [("a.md",
        ({ checksum := "H", modified := "M", drive_id := some "1",
           drive_modified := some "T" } : Entry))] "a.md").isSome = true ∧
    ((fun _ : String => false) "a.md" = false) ∧
    ("a.md" ∈ (pullClassify [("a.md", { id := "1", modified := "T" })]
        [("a.md",
          { checksum := "H", modified := "M", drive_id := some "1",
            drive_modified := some "T" })] (fun _ => false)).1
      ++ (pullClassify [("a.md", { id := "1", modified := "T" })]
        [("a.md",
          { checksum := "H", modified := "M", drive_id := some "1",
            drive_modified := some "T" })] (fun _ => false)).2.1 ∧
     "a.md" ∉ (pullClassify [("a.md", { id := "1", modified := "T" })]
        [("a.md",
          { checksum := "H", modified := "M", drive_id := some "1",
            drive_modified := some "T" })] (fun _ => false)).2.2) :=
  ⟨by simp, by decide, rfl,
    c7_pull_restores_missing_local _ _ _ "a.md" { id := "1", modified := "T" }
      (by simp) (by decide) rfl⟩

/-- When every upload succeeds, the upload loop never aborts. -/
theorem uploadLoop_no_abort (up : String → Option String)
    (hup : ∀ q, (up q).isSome = true) :
    ∀ (ps : List String) (man : Manifest) (acts : List PushAction),
      (uploadLoop up ps man acts).2.2 = false := by
  intro ps
  induction ps with
  | nil => intro man acts; simp [uploadLoop]
  | cons q ps ih =>
    intro man acts
    rcases hq : up q with _ | did
    · have := hup q
      rw [hq] at this
      simp at this
    · simp [uploadLoop, hq, ih]

/-- A tracked path no scanned note carries lands in `deleted_files`. -/
theorem pushDeleted_mem {old : Manifest} {notes : List LocalFile} {p : String} {e : Entry}
    (hmem : (p, e) ∈ old) (h : ∀ f ∈ notes, f.path ≠ p) :
    p ∈ pushDeleted old notes := by
  have hcond : (! notes.any (fun f => f.path == p)) = true := by
    rw [Bool.not_eq_true']
    rw [Bool.eq_false_iff]
    intro hany
    obtain ⟨f, hf, hbeq⟩ := List.any_eq_true.mp hany
    exact h f hf (by simpa using hbeq)
  exact List.mem_map_of_mem _ (List.mem_filter.mpr ⟨hmem, hcond⟩)

/-- Claim C10: a manifest entry with no stored remote object id (as the
initialize-only mode writes) whose path is absent from the local scan is
dropped by a completed push run without any delete-remote action for it,
leaving any remote copy in place. -/
theorem c10_init_entry_dropped_without_remote_delete
    (old : Manifest) (vault : List LocalFile) (up : String → Option String)
    (p : String) (e : Entry)
    (hget : dget old p = some e) (hid : e.drive_id = none)
    (hscan : p ∉ (get_all_notes vault).map (fun f => f.path))
    (hup : ∀ q, (up q).isSome = true) :
    dget (pushRun old vault up).saved p = none ∧
    PushAction.deleteRemote p ∉ (pushRun old vault up).actions := by
  have hnotes : ∀ f ∈ get_all_notes vault, f.path ≠ p :=
    fun f hf he => hscan (List.mem_map.mpr ⟨f, hf, he⟩)
  have hdel : p ∈ pushDeleted old (get_all_notes vault) :=
    pushDeleted_mem (dget_mem hget) hnotes
  have hempty : ((pushNew old (get_all_notes vault)).isEmpty &&
      (pushModified old (get_all_notes vault)).isEmpty &&
      (pushDeleted old (get_all_notes vault)).isEmpty) = false := by
    cases hc1 : pushDeleted old (get_all_notes vault) with
    | nil => rw [hc1] at hdel; simp at hdel
    | cons x xs => simp [hc1]
  rw [pushRun, hempty]
  simp only [Bool.false_eq_true, if_false]
  rcases hloop : uploadLoop up
      (pushNew old (get_all_notes vault) ++ pushModified old (get_all_notes vault))
      (newChecksums old (get_all_notes vault)) [] with ⟨m1, a1, ab⟩
  have hab : ab = false := by
    have := uploadLoop_no_abort up hup
      (pushNew old (get_all_notes vault) ++ pushModified old (get_all_notes vault))
      (newChecksums old (get_all_notes vault)) []
    rw [hloop] at this
    exact this
  subst hab
  have hnewC := newChecksums_dget_none old p (get_all_notes vault) hnotes
  have hm1 : dget m1 p = none := by
    have := uploadLoop_dget_none up p
      (pushNew old (get_all_notes vault) ++ pushModified old (get_all_notes vault))
      (newChecksums old (get_all_notes vault)) [] hnewC
    rw [hloop] at this
    exact this
  obtain ⟨qs, hqs⟩ := uploadLoop_acts up
    (pushNew old (get_all_notes vault) ++ pushModified old (get_all_notes vault))
    (newChecksums old (get_all_notes vault)) []
  have ha1 : a1 = qs.map PushAction.upload := by
    rw [hloop] at hqs
    simpa using hqs
  constructor
  · simpa using hm1
  · show PushAction.deleteRemote p ∉
        a1 ++ ((pushDeleted old (get_all_notes vault)).filter
          (fun q => ((dget old q).bind (fun e => e.drive_id)).isSome)).map
            PushAction.deleteRemote
    intro hmem2
    rcases List.mem_append.mp hmem2 with hx | hx
    · rw [ha1] at hx
      obtain ⟨q, _, hq⟩ := List.mem_map.mp hx
      exact PushAction.noConfusion hq
    · obtain ⟨q, hqf, hq⟩ := List.mem_map.mp hx
      have hqp : q = p := by injection hq
      subst hqp
      have hcond := (List.mem_filter.mp hqf).2
      rw [hget] at hcond
      simp [hid] at hcond

/-- Claim C10, witness: an initialize-only manifest entry for `b.md`,
with the file then absent from the vault, is dropped by the next push
without a remote delete. -/
theorem c10_witness :
    dget (initChecksums [{ path := "b.md", checksum := "H", modified := "M" }]) "b.md"
      = some { checksum := "H", modified := "M", drive_id := none, drive_modified := none } ∧
    (dget (pushRun (initChecksums [{ path := "b.md", checksum := "H", modified := "M" }])
        [] (fun _ => some "X")).saved "b.md" = none ∧
     PushAction.deleteRemote "b.md"
        ∉ (pushRun (initChecksums [{ path := "b.md", checksum := "H", modified := "M" }])
            [] (fun _ => some "X")).actions) :=
  ⟨by decide,
    c10_init_entry_dropped_without_remote_delete
      (initChecksums [{ path := "b.md", checksum := "H", modified := "M" }])
      [] (fun _ => some "X") "b.md"
      { checksum := "H", modified := "M", drive_id := none, drive_modified := none }
      (by decide) rfl (by decide) (fun q => rfl)⟩

/-- Claim C5, evaluation at the failing input: with the remote-store
collaborator unavailable (`GOOGLE_API_AVAILABLE` false or missing
credentials), both phase scripts print an error and return normally, so
each process exits 0 and sync.py sees two zero return codes and reports
success — the claimed non-zero exit never happens.  The final conjunct
shows the converse slip: a single failed upload (a per-file failure) is
the one thing that does make the push exit non-zero, because it is an
uncaught exception. -/
theorem c5_exit_zero_when_unavailable :
    pull_from_google_drive_exit false [] [] (fun _ => false) (fun _ => none)
        (fun _ => false) = 0 ∧
    sync_to_google_drive_exit false [] [] (fun _ => none) = 0 ∧
    sync_main_exit
        (pull_from_google_drive_exit false [] [] (fun _ => false) (fun _ => none)
          (fun _ => false))
        (sync_to_google_drive_exit false [] [] (fun _ => none)) = 0 ∧
    sync_to_google_drive_exit true []
        [{ path := "a.md", checksum := "H", modified := "M" }] (fun _ => none) = 1 :=
  ⟨rfl, rfl, rfl, by decide⟩

/-! ### Empty-directory compactor: unfolding lemmas and claim C9 -/

theorem contains_eq_false_iff (l : List String) (a : String) :
    l.contains a = false ↔ a ∉ l := by
  rw [show l.contains a = l.elem a from rfl, Bool.eq_false_iff]
  simp [List.elem_iff]

theorem cleanupChildren_nil : cleanupChildren [] = [] := by
  simp [cleanupChildren]

theorem cleanupChildren_file (n : String) (rest : List FsEntry) :
    cleanupChildren (FsEntry.file n :: rest) = FsEntry.file n :: cleanupChildren rest := by
  simp [cleanupChildren]

theorem cleanupChildren_dir (n : String) (cs rest : List FsEntry) :
    cleanupChildren (FsEntry.dir n cs :: rest) =
      if (cleanupChildren cs).isEmpty && !(PRESERVE_FOLDERS.contains (lowerStr n)) then
        cleanupChildren rest
      else FsEntry.dir n (cleanupChildren cs) :: cleanupChildren rest := by
  simp [cleanupChildren]

/-- Every directory surviving the compactor pass is non-empty after its
own cleaning or has a preserved name. -/
theorem cleanupChildren_dir_kept :
    ∀ (es : List FsEntry) (n : String) (l : List FsEntry),
      FsEntry.dir n l ∈ cleanupChildren es →
      ¬(l.isEmpty = true ∧ lowerStr n ∉ PRESERVE_FOLDERS) := by
  intro es
  induction es with
  | nil =>
    intro n l h
    rw [cleanupChildren_nil] at h
    simp at h
  | cons e rest ih =>
    cases e with
    | file m =>
      intro n l h
      rw [cleanupChildren_file] at h
      rcases List.mem_cons.mp h with h1 | h1
      · exact absurd h1 (by simp)
      · exact ih n l h1
    | dir m cs =>
      intro n l h
      rw [cleanupChildren_dir] at h
      by_cases hrm : ((cleanupChildren cs).isEmpty
          && !(PRESERVE_FOLDERS.contains (lowerStr m))) = true
      · rw [if_pos hrm] at h
        exact ih n l h
      · rw [if_neg hrm] at h
        rcases List.mem_cons.mp h with h1 | h1
        · injection h1 with hn hl
          subst hn
          subst hl
          rintro ⟨hemp, hpres⟩
          apply hrm
          simp [hemp, hpres]
        · exact ih n l h1

/-- A directory that is non-empty after cleaning, or preserved, survives
the compactor pass (with its children cleaned). -/
theorem cleanupChildren_dir_mem :
    ∀ (es : List FsEntry) (n : String) (cs : List FsEntry),
      FsEntry.dir n cs ∈ es →
      ¬((cleanupChildren cs).isEmpty = true ∧ lowerStr n ∉ PRESERVE_FOLDERS) →
      FsEntry.dir n (cleanupChildren cs) ∈ cleanupChildren es := by
  intro es
  induction es with
  | nil =>
    intro n cs h _
    simp at h
  | cons e rest ih =>
    intro n cs h hkeep
    rcases List.mem_cons.mp h with h1 | h1
    · subst h1
      rw [cleanupChildren_dir]
      by_cases hrm : ((cleanupChildren cs).isEmpty
          && !(PRESERVE_FOLDERS.contains (lowerStr n))) = true
      · exfalso
        apply hkeep
        rw [Bool.and_eq_true] at hrm
        obtain ⟨hemp, hp⟩ := hrm
        rw [Bool.not_eq_true'] at hp
        exact ⟨hemp, (contains_eq_false_iff _ _).mp hp⟩
      · rw [if_neg hrm]
        exact List.mem_cons_self _ _
    · cases e with
      | file m =>
        rw [cleanupChildren_file]
        exact List.mem_cons_of_mem _ (ih n cs h1 hkeep)
      | dir m ds =>
        rw [cleanupChildren_dir]
        by_cases hrm : ((cleanupChildren ds).isEmpty
            && !(PRESERVE_FOLDERS.contains (lowerStr m))) = true
        · rw [if_pos hrm]
          exact ih n cs h1 hkeep
        · rw [if_neg hrm]
          exact List.mem_cons_of_mem _ (ih n cs h1 hkeep)

/-- Claim C9: the bottom-up compactor removes a directory if and only if
it has no remaining entries after its own subtree is cleaned and its
lowercased name is not in the fixed preserve set {img, weekly, neovim}. -/
theorem c9_compactor_removes_iff (es : List FsEntry) (n : String) (cs : List FsEntry)
    (hmem : FsEntry.dir n cs ∈ es) :
    FsEntry.dir n (cleanupChildren cs) ∈ cleanupChildren es ↔
      ¬((cleanupChildren cs).isEmpty = true ∧ lowerStr n ∉ PRESERVE_FOLDERS) :=
  ⟨fun h => cleanupChildren_dir_kept es n (cleanupChildren cs) h,
   fun h => cleanupChildren_dir_mem es n cs hmem h⟩

/-- Claim C9, witness: an empty unpreserved directory `notes` next to an
empty preserved directory `img`. -/
theorem c9_witness :
    (FsEntry.dir "notes" [] ∈ [FsEntry.dir "notes" [], FsEntry.dir "img" []]) ∧
    (FsEntry.dir "notes" (cleanupChildren []) ∈
        cleanupChildren [FsEntry.dir "notes" [], FsEntry.dir "img" []] ↔
      ¬((cleanupChildren []).isEmpty = true ∧ lowerStr "notes" ∉ PRESERVE_FOLDERS)) :=
  ⟨by simp, c9_compactor_removes_iff _ _ _ (by simp)⟩

/-! ### Remote scanner pagination: claim C3 -/

theorem scanItems_zero (path : String) (items : List DriveItem) (acc : DriveMap) :
    scanItems path 0 items acc = acc := by
  cases items <;> simp [scanItems]

/-- Children beyond the page budget never influence the scan result. -/
theorem scanItems_stops_at_page (path : String) :
    ∀ (items : List DriveItem) (r : Nat) (extra : List DriveItem) (acc : DriveMap),
      items.length = r →
      scanItems path r (items ++ extra) acc = scanItems path r items acc := by
  intro items
  induction items with
  | nil =>
    intro r extra acc hlen
    simp at hlen
    subst hlen
    rw [List.nil_append, scanItems_zero, scanItems_nil]
  | cons it rest ih =>
    intro r extra acc hlen
    rcases r with _ | r
    · simp at hlen
    · have hr : rest.length = r := by simpa using hlen
      cases it with
      | file n did mt =>
        rw [List.cons_append, scanItems_file, scanItems_file]
        exact ih r extra _ hr
      | folder n cs =>
        rw [List.cons_append, scanItems_folder, scanItems_folder]
        exact ih r extra _ hr

/-- Claim C3, amended: `list_drive_files` issues a single listing call
per folder with page size 1000 and never follows a continuation token,
so whenever a folder has 1000 children, any further children are
silently ignored — the scan of `cs ++ extra` equals the scan of `cs`
alone. -/
theorem c3_amended (path : String) (cs extra : List DriveItem)
    (hlen : cs.length = 1000) :
    list_drive_files path (cs ++ extra) = list_drive_files path cs := by
  rw [list_drive_files, list_drive_files, ← hlen]
  exact scanItems_stops_at_page path cs cs.length extra [] rfl

/-- Claim C3, witness for the amended theorem: a folder with 1000 files
plus one more child scans identically to the folder without it. -/
theorem c3_amended_witness :
    ((List.range 1000).map (fun i => DriveItem.file "a.md" (Nat.repr i) "T")).length
      = 1000 ∧
    list_drive_files ""
        ((List.range 1000).map (fun i => DriveItem.file "a.md" (Nat.repr i) "T")
          ++ [DriveItem.file "b.md" "x" "T"])
      = list_drive_files ""
          ((List.range 1000).map (fun i => DriveItem.file "a.md" (Nat.repr i) "T")) :=
  ⟨by simp, c3_amended "" _ _ (by simp)⟩

/-- When the first `r` items are plain files whose paths all differ from
`k`, the scan cannot produce a map entry at `k`. -/
theorem scanItems_lookup_none (path k : String) :
    ∀ (items : List DriveItem) (r : Nat) (acc : DriveMap),
      dget acc k = none →
      (∀ it ∈ items.take r,
        ∃ n did mt, it = DriveItem.file n did mt ∧ childPath path n ≠ k) →
      dget (scanItems path r items acc) k = none := by
  intro items
  induction items with
  | nil =>
    intro r acc hacc _
    rw [scanItems_nil]
    exact hacc
  | cons it rest ih =>
    intro r acc hacc hnames
    rcases r with _ | r
    · rw [scanItems_zero]
      exact hacc
    · obtain ⟨n, did, mt, hit, hne⟩ := hnames it (by simp)
      subst hit
      rw [scanItems_file]
      apply ih r
      · by_cases hm : matchesExt n = true
        · rw [if_pos hm, dget_dset_ne _ _ _ _ (Ne.symm hne)]
          exact hacc
        · rw [if_neg hm]
          exact hacc
      · intro it2 hit2
        exact hnames it2 (by rw [List.take_succ_cons]; exact List.mem_cons_of_mem _ hit2)

/-- A remote folder with 1001 children: files `f0.md` … `f1000.md`. -/
def bigChildren : List DriveItem :=
  (List.range 1001).map (fun i => DriveItem.file ("f" ++ Nat.repr i ++ ".md") (Nat.repr i) "T")

set_option maxRecDepth 400000 in
/-- Claim C3, counterexample: the folder `bigChildren` holds 1001
matching markdown files, more than one page returns, yet the scanned map
has no entry for the 1001st file `f1000.md` — the scanner truncates to
the single first page instead of paging until exhaustion. -/
theorem c3_counterexample :
    DriveItem.file "f1000.md" (Nat.repr 1000) "T" ∈ bigChildren ∧
    matchesExt "f1000.md" = true ∧
    dget (list_drive_files "" bigChildren) "f1000.md" = none := by
  refine ⟨?_, by decide, ?_⟩
  · exact List.mem_map.mpr ⟨1000, by simp,
      by rw [show ("f" ++ Nat.repr 1000 ++ ".md") = "f1000.md" from by decide]⟩
  · rw [list_drive_files]
    apply scanItems_lookup_none
    · rfl
    · intro it hit
      have htake : bigChildren.take 1000
          = (List.range 1000).map
              (fun i => DriveItem.file ("f" ++ Nat.repr i ++ ".md") (Nat.repr i) "T") := by
        rw [bigChildren, ← List.map_take, List.take_range]
        norm_num
      rw [htake] at hit
      obtain ⟨i, hi, hfi⟩ := List.mem_map.mp hit
      refine ⟨"f" ++ Nat.repr i ++ ".md", Nat.repr i, "T", hfi.symm, ?_⟩
      have hall : ((List.range 1000).all
          (fun j => ("f" ++ Nat.repr j ++ ".md") != "f1000.md")) = true := by decide
      have hne := List.all_eq_true.mp hall i hi
      simp only [childPath, if_pos rfl]
      simpa using hne

/-- Claim C8, witness: the ordering theorem instantiated on a concrete
pull run and a concrete push run. -/
theorem c8_witness :
    (∃ ts ds,
      (pullRun [("a.md", { id := "1", modified := "T" })] [] (fun _ => false)
          (fun _ => some ("H", "M")) (fun _ => true)).actions = ts ++ ds ∧
      (∀ a ∈ ts, ∃ p, a = PullAction.download p) ∧
      (∀ a ∈ ds, ∃ p, a = PullAction.deleteLocal p)) ∧
    (∃ ts ds,
      (pushRun [] [{ path := "a.md", checksum := "H", modified := "M" }]
          (fun _ => some "R")).actions = ts ++ ds ∧
      (∀ a ∈ ts, ∃ p, a = PushAction.upload p) ∧
      (∀ a ∈ ds, ∃ p, a = PushAction.deleteRemote p)) :=
  ⟨c8_transfers_before_deletions.1 [("a.md", { id := "1", modified := "T" })] []
      (fun _ => false) (fun _ => some ("H", "M")) (fun _ => true),
   c8_transfers_before_deletions.2 [] [{ path := "a.md", checksum := "H", modified := "M" }]
      (fun _ => some "R")⟩

end GoogleSync
